import Mathlib

/-!
Verification of the rvfs-sim-core simulation engine against its design
specification.  The Rust sources (wirevalue.rs, wire.rs, opin.rs, library.rs,
sim.rs) are shallowly embedded: `f32` levels and time constants become real
numbers, with the IEEE special values that the code can actually produce
(the result of `exp(-delta_t/tau)` at `tau = 0`) modelled explicitly — an
`Option ℝ` level where `none` stands for NaN; `u64` durations become `ℕ`.
The concurrent carrier-update phase of sim.rs is embedded as a deterministic
function parameterised by the order in which worker results arrive on the
result channel, which makes the thread-pool nondeterminism explicit.
-/

namespace RvfsSim

noncomputable section

/-- Types of pull which may be exerted on a Wire (wire.rs `WirePull`). -/
inductive WirePull where
  | Up
  | Down
  | None
deriving DecidableEq

/-- Clamp to the interval [0, 1], as `f32::clamp(0.0, 1.0)` acts on a non-NaN
float. -/
def clampR (x : ℝ) : ℝ := min (max x 0) 1

/-- A clamped float representing the values a simulated Wire can hold
(wirevalue.rs `WireValue`).  `none` models an IEEE NaN stored in the field:
`f32::clamp` returns NaN for a NaN input, so a NaN survives construction. -/
structure WireValue where
  level : Option ℝ

/-- wirevalue.rs `WireValue::new`: clamp the level to the permitted range.
For a NaN input (`none`) Rust's `clamp` returns NaN. -/
def WireValue.new (level : Option ℝ) : WireValue :=
  ⟨level.map clampR⟩

/-- A connection between OutputPin and InputPin instances (wire.rs `Wire`). -/
structure Wire where
  /-- The ID used to look up the Wire once it has been added to a Simulation. -/
  id : Option ℕ
  /-- A readable, unique name for the Wire within the Simulation. -/
  name : String
  /-- Default pull that the Wire feels when the active pull is None. -/
  default_pull : WirePull
  /-- Active pull that the Wire feels at the present time. -/
  pull : WirePull
  /-- Time constant which determines how quickly the Wire approaches its final
  value. -/
  tau : ℝ
  /-- Present value of the Wire. -/
  value : WireValue

/-- wire.rs `Wire::new`. -/
def Wire.new (name : String) (default_pull : WirePull) : Wire :=
  let value := match default_pull with
    | WirePull.Up => WireValue.new (some 1)
    | WirePull.Down => WireValue.new (some 0)
    | WirePull.None => WireValue.new (some 0.5)
  { id := none
    name := name
    default_pull := default_pull
    pull := WirePull.None
    tau := 0
    value := value }

/-- wire.rs `Wire::pull`: the present (effective) pull direction — the active
pull takes precedence over the default pull.  Named `effective_pull` here
because the field `pull` already carries the source's field name. -/
def Wire.effective_pull (w : Wire) : WirePull :=
  if w.pull = WirePull.None then w.default_pull else w.pull

/-- wire.rs `Wire::measure`. -/
def Wire.measure (w : Wire) : WireValue := w.value

/-- wire.rs `Wire::id`, renamed: the field keeps the source's name. -/
def Wire.getId (w : Wire) : Except String ℕ :=
  match w.id with
  | some i => Except.ok i
  | none => Except.error "No ID set!"

/-- wire.rs `Wire::assign_id`; Rust mutates in place and returns a `Result`,
embedded as a (result, updated wire) pair. -/
def Wire.assign_id (w : Wire) (id : ℕ) : Except String ℕ × Wire :=
  if w.id.isSome then
    (Except.error "ID already set!", w)
  else
    (Except.ok id, { w with id := some id })

/-- wire.rs `Wire::set_time_constant`: `tau.clamp(0.0, f32::INFINITY)`, which
for a finite input is `max tau 0`. -/
def Wire.set_time_constant (w : Wire) (tau : ℝ) : Wire :=
  { w with tau := max tau 0 }

/-- wire.rs `Wire::set_pull`. -/
def Wire.set_pull (w : Wire) (pull : WirePull) : Wire :=
  { w with pull := pull }

/-- The value of `(-(delta_t as f32) / tau).exp()` under IEEE arithmetic:
for `tau ≠ 0` the real `exp (-delta_t / tau)`; for `tau = 0` the division
yields `-∞` when `delta_t > 0` (so the exponential is exactly 0) and NaN
(modelled as `none`) when `delta_t = 0`. -/
def decayFactor (tau : ℝ) (delta_t : ℕ) : Option ℝ :=
  if tau = 0 then
    if delta_t = 0 then none else some 0
  else
    some (Real.exp (-(delta_t : ℝ) / tau))

/-- NaN-propagating product of two IEEE values. -/
def omul (a b : Option ℝ) : Option ℝ :=
  a.bind fun x => b.map fun y => x * y

/-- NaN-propagating `1.0 - x`. -/
def oneMinus (a : Option ℝ) : Option ℝ :=
  a.map fun x => 1 - x

/-- wire.rs `Wire::step`: calculate the new value of the wire based on the
present value, pull direction and time constant. -/
def Wire.step (w : Wire) (delta_t : ℕ) : Wire :=
  let pull := w.effective_pull
  if pull ≠ WirePull.None then
    let newval := omul w.value.level (decayFactor w.tau delta_t)
    if pull = WirePull.Up then
      { w with value := WireValue.new (oneMinus newval) }
    else
      { w with value := WireValue.new newval }
  else
    w

/-- Claim C2's reference model: `step` as §4.3 of the spec words it — if the
effective pull is None the value is unchanged; otherwise
`decayed = current_level * exp (-delta_t / tau)` and the new level is
`clamp (1 - decayed)` when pulled Up, `clamp decayed` when pulled Down, with
the spec's stated τ = 0 edge case (snap exactly to the pulled rail for any
`delta_t > 0`).  Outside that edge case the exponential at τ = 0 is read as
IEEE arithmetic reads `exp (-0/0)`: NaN (`none`). -/
def specFactor (tau : ℝ) (delta_t : ℕ) : Option ℝ :=
  if tau = 0 then none else some (Real.exp (-(delta_t : ℝ) / tau))

/-- The spec-side step (see `specFactor` for the reading of the formula). -/
def Wire.stepSpec (w : Wire) (delta_t : ℕ) : Wire :=
  match w.effective_pull with
  | WirePull.None => w
  | WirePull.Up =>
    if w.tau = 0 ∧ delta_t ≠ 0 then
      { w with value := ⟨some 1⟩ }
    else
      { w with value :=
          WireValue.new (oneMinus (omul w.value.level (specFactor w.tau delta_t))) }
  | WirePull.Down =>
    if w.tau = 0 ∧ delta_t ≠ 0 then
      { w with value := ⟨some 0⟩ }
    else
      { w with value :=
          WireValue.new (omul w.value.level (specFactor w.tau delta_t)) }

/-- `n` repeated calls of `step` with one and the same `delta_t`. -/
def stepIter (w : Wire) (delta_t : ℕ) : ℕ → Wire
  | 0 => w
  | n + 1 => (stepIter w delta_t n).step delta_t

/-- The rail a pull direction steers toward (glossary: Up → 1, Down → 0). -/
def railLevel (p : WirePull) : ℝ :=
  if p = WirePull.Up then 1 else 0

/-- Claim C1 as stated: for every Wire with τ > 0 and effective pull ≠ None,
repeated `step` calls with one and the same `delta_t > 0` move the level
monotonically toward the pulled rail (the distance to the rail never grows),
never overshoot it, and for every ε > 0 the level is within ε of the rail
after sufficiently many steps. -/
def repeatedStepClaim : Prop :=
  ∀ (w : Wire) (delta_t : ℕ),
    0 < w.tau → w.effective_pull ≠ WirePull.None → 0 < delta_t →
    ((∀ n x y,
        (stepIter w delta_t n).value.level = some x →
        (stepIter w delta_t (n + 1)).value.level = some y →
        |y - railLevel w.effective_pull| ≤ |x - railLevel w.effective_pull| ∧
        (w.effective_pull = WirePull.Up → y ≤ 1) ∧
        (w.effective_pull = WirePull.Down → 0 ≤ y)) ∧
      (∀ ε : ℝ, 0 < ε → ∃ N, ∀ n, N ≤ n → ∃ x,
        (stepIter w delta_t n).value.level = some x ∧
        |x - railLevel w.effective_pull| < ε))

/-- The wire's measured level is a number within `tol` of `c`. -/
def levelNear (w : Wire) (c tol : ℝ) : Prop :=
  ∃ x, w.value.level = some x ∧ |x - c| ≤ tol

/-- Claim C3's scenario: default pull Up, time constant set to 5, no active
pull override. -/
def wireC3 : Wire := (Wire.new "w" WirePull.Up).set_time_constant 5

/-- Claim C1's counterexample wire: default pull Up, τ = 1, no override. -/
def wireUpW : Wire := (Wire.new "w" WirePull.Up).set_time_constant 1

/-- Claim C1's witness wire: default pull Down, τ = 1, no override. -/
def wireDnW : Wire := (Wire.new "w" WirePull.Down).set_time_constant 1

/-- opin.rs `OutputPinState`. -/
inductive OutputPinState where
  | Low
  | High
  | HighImpedance
deriving DecidableEq

/-- `u64::MAX`. -/
def UMAX : ℕ := 2 ^ 64 - 1

/-- An interface between Element and Wire instances (opin.rs `OutputPin`). -/
structure OutputPin where
  /-- A readable name for the pin. -/
  name : String
  /-- State that will become active once the remaining propagation time
  elapses. -/
  propagating_state : OutputPinState
  /-- Active pin state. -/
  state : OutputPinState
  /-- Propagation delay for this pin. -/
  delay : ℕ
  /-- Remaining time until the propagating state becomes active. -/
  remaining_propagation : ℕ
deriving DecidableEq

/-- opin.rs `OutputPin::new`. -/
def OutputPin.new (name : String) (delay : ℕ) (state : OutputPinState) :
    OutputPin :=
  { name := name
    propagating_state := OutputPinState.HighImpedance
    state := state
    delay := delay
    remaining_propagation := UMAX }

/-- opin.rs `OutputPin::set`. -/
def OutputPin.set (p : OutputPin) (state : OutputPinState) : OutputPin :=
  { p with propagating_state := state, remaining_propagation := p.delay }

/-- opin.rs `OutputPin::step`. -/
def OutputPin.step (p : OutputPin) (delta_t : ℕ) : OutputPin :=
  if p.remaining_propagation ≤ delta_t then
    { p with remaining_propagation := 0, state := p.propagating_state }
  else
    { p with remaining_propagation := p.remaining_propagation - delta_t }

/-- library.rs `Library<T>`: a container which allows items to be temporarily
checked in and out by Id. -/
structure Library (T : Type) where
  /-- The "stacks" or "shelves" of the Library. -/
  items : List (Option T)

/-- library.rs `Library::new`. -/
def Library.new {T : Type} : Library T := ⟨[]⟩

/-- library.rs `Library::add`; Rust mutates and returns the fresh Id, embedded
as an (updated library, id) pair. -/
def Library.add {T : Type} (l : Library T) (item : T) : Library T × ℕ :=
  (⟨l.items ++ [some item]⟩, l.items.length)

/-- library.rs `Library::iter`: every Id from 0 to the library's length,
regardless of occupancy (lib.rs `IdIter`). -/
def Library.iterIds {T : Type} (l : Library T) : List ℕ :=
  List.range l.items.length

/-- library.rs `Library::inspect`. -/
def Library.inspect {T : Type} (l : Library T) (id : ℕ) : Option T :=
  l.items.getD id none

/-- library.rs `Library::checkout`; Rust's `Option::take` returns the slot's
content and leaves `None` behind. -/
def Library.checkout {T : Type} (l : Library T) (id : ℕ) :
    Option T × Library T :=
  if id < l.items.length then
    (l.items.getD id none, ⟨l.items.set id none⟩)
  else
    (none, l)

/-- library.rs `Library::checkin`. -/
def Library.checkin {T : Type} (l : Library T) (id : ℕ) (item : T) :
    Except String ℕ × Library T :=
  if id < l.items.length ∧ (l.items.getD id none).isNone = true then
    (Except.ok id, ⟨l.items.set id (some item)⟩)
  else
    (Except.error "Item cannot be checked in with that ID!", l)

/-- library.rs `Library::audit`. -/
def Library.audit {T : Type} (l : Library T) : Except String Unit :=
  if l.items.any Option.isNone then
    Except.error "Items missing from library!"
  else
    Except.ok ()

/-- A caller-side operation on a Library, for claim C7's operation
sequences. -/
inductive LOp (T : Type) where
  | add : T → LOp T
  | checkout : ℕ → LOp T
  | checkin : ℕ → T → LOp T

/-- A library together with, per id, how many checkouts and checkins have
actually succeeded so far (failed calls move nothing and count nothing). -/
structure LibState (T : Type) where
  lib : Library T
  outs : ℕ → ℕ
  ins : ℕ → ℕ

/-- Increment a per-id counter at `id`. -/
def bump (f : ℕ → ℕ) (id : ℕ) : ℕ → ℕ :=
  fun j => if j = id then f j + 1 else f j

/-- Apply one operation, recording whether it took effect. -/
def applyOp {T : Type} (s : LibState T) : LOp T → LibState T
  | LOp.add item => { s with lib := (s.lib.add item).1 }
  | LOp.checkout id =>
    let r := s.lib.checkout id
    { lib := r.2
      outs := if r.1.isSome then bump s.outs id else s.outs
      ins := s.ins }
  | LOp.checkin id item =>
    let r := s.lib.checkin id item
    { lib := r.2
      outs := s.outs
      ins := match r.1 with
        | Except.ok _ => bump s.ins id
        | Except.error _ => s.ins }

/-- Run a sequence of operations. -/
def runOps {T : Type} : List (LOp T) → LibState T → LibState T
  | [], s => s
  | op :: ops, s => runOps ops (applyOp s op)

/-- The initially empty store with zeroed counters. -/
def initState {T : Type} : LibState T :=
  ⟨Library.new, fun _ => 0, fun _ => 0⟩

/-- The bookkeeping invariant tying slot occupancy to the counters. -/
def LibInv {T : Type} (s : LibState T) : Prop :=
  ∀ id : ℕ,
    (id < s.lib.items.length →
      ((s.lib.items.getD id none).isSome = true ↔ s.ins id = s.outs id) ∧
      s.ins id ≤ s.outs id ∧ s.outs id ≤ s.ins id + 1) ∧
    (s.lib.items.length ≤ id → s.outs id = 0 ∧ s.ins id = 0)

/-- sim.rs `SimResult`. -/
inductive SimResult where
  | Continuing
  | Finished
deriving DecidableEq

/-- sim.rs `StepResult`: a result for a single simulation step sent back over
the channel. -/
inductive StepResult where
  | Wire : Except String SimResult → Wire → StepResult
  | Element : Except String SimResult → StepResult

/-- sim.rs `Simulation` (the thread pool, channel endpoints and phase timeout
carry no simulated state and are not part of the embedding; the channel's
behaviour enters through the arrival order passed to `step_wires`). -/
structure Simulation where
  /-- Time step size (asserted nonzero at construction). -/
  interval : ℕ
  /-- Present simulation time. -/
  time : ℕ
  /-- Collection of all Wires that have been added to the Simulation. -/
  wires : Library Wire

/-- sim.rs `Simulation::new` (the `assert_ne!(0, interval)` precondition is the
caller's obligation). -/
def Simulation.new (interval : ℕ) : Simulation :=
  { interval := interval, time := 0, wires := Library.new }

/-- sim.rs `Simulation::is_empty`. -/
def Simulation.is_empty (s : Simulation) : Bool :=
  s.wires.iterIds.length = 0

/-- sim.rs `Simulation::add_wire`. -/
def Simulation.add_wire (s : Simulation) (w : Wire) :
    Simulation × Except String ℕ :=
  let r := s.wires.add w
  ({ s with wires := r.1 }, Except.ok r.2)

/-- sim.rs `Simulation::wire`. -/
def Simulation.wire (s : Simulation) (id : ℕ) : Except String Wire :=
  match s.wires.inspect id with
  | some w => Except.ok w
  | none => Except.error "No wire found for the given ID"

/-- The checkout loop at the head of sim.rs `Simulation::step_wires`: check
every id out of the store; a failed checkout for a known id surfaces as a
fatal error. -/
def checkoutIds : List ℕ → Library Wire → Except String (List Wire × Library Wire)
  | [], lib => Except.ok ([], lib)
  | id :: rest, lib =>
    match lib.checkout id with
    | (some w, lib2) =>
      match checkoutIds rest lib2 with
      | Except.ok (ws, lib3) => Except.ok (w :: ws, lib3)
      | Except.error e => Except.error e
    | (none, _) => Except.error "Wire checkout failed!"

/-- The receive loop of sim.rs `Simulation::step_wires`: one blocking receive
per iterated id.  `results` holds the messages the dispatched tasks send (the
`j`-th entry is the result of the task for the `j`-th checked-out wire);
`order` gives the order those messages arrive on the mpsc channel, so the
`k`-th receive yields `results[order[k]]`.  A missing entry models a receive
that times out; the received wire is checked in at the loop's current `id`,
exactly as the source does. -/
def receiveLoop (results : List StepResult) (order : List ℕ) :
    List ℕ → ℕ → Bool → Library Wire → Except String (Bool × Library Wire)
  | [], _, fin, lib => Except.ok (fin, lib)
  | id :: rest, k, fin, lib =>
    match (order.get? k).bind results.get? with
    | none =>
      Except.error "Timed out waiting for wire step phase to complete!"
    | some (StepResult.Wire opResult w) =>
      match opResult with
      | Except.error e => Except.error e
      | Except.ok r =>
        match lib.checkin id w with
        | (Except.ok _, lib2) =>
          receiveLoop results order rest (k + 1)
            (fin || (r == SimResult.Finished)) lib2
        | (Except.error e, _) => Except.error e
    | some (StepResult.Element _) =>
      receiveLoop results order rest (k + 1) fin lib

/-- sim.rs `Simulation::step_wires`, the carrier-update phase: check out every
wire, dispatch each wire's `step interval` to the pool (every task sends
`StepResult::Wire (Ok Continuing)` with the mutated wire), then perform one
receive per id, checking each received wire in and folding the outcomes.
`order` is the channel arrival order (see `receiveLoop`). -/
def Simulation.step_wires (sim : Simulation) (order : List ℕ) :
    Except String (Simulation × SimResult) :=
  let ids := sim.wires.iterIds
  match checkoutIds ids sim.wires with
  | Except.error e => Except.error e
  | Except.ok (ws, lib1) =>
    let results := ws.map fun w =>
      StepResult.Wire (Except.ok SimResult.Continuing) (w.step sim.interval)
    match receiveLoop results order ids 0 false lib1 with
    | Except.error e => Except.error e
    | Except.ok (fin, lib2) =>
      Except.ok ({ sim with wires := lib2 },
        if fin then SimResult.Finished else SimResult.Continuing)

/-- Claim C4's concrete run: first wire added. -/
def wireFoo : Wire := Wire.new "foo" WirePull.None

/-- Claim C4's concrete run: second wire added. -/
def wireBar : Wire := Wire.new "bar" WirePull.None

/-- Claim C4's concrete simulation: interval 10, wires foo (id 0) and
bar (id 1). -/
def simC4 : Simulation :=
  (((Simulation.new 10).add_wire wireFoo).1.add_wire wireBar).1


/-- Claim C9: for every Wire with no identifier assigned, the first
`assign_id id` succeeds and returns `Ok id`; on a Wire that already has an
identifier, any further `assign_id` call fails with an error and leaves the
stored identifier unchanged, so `id()` still returns the original value. -/
theorem wire_assign_id_once (w : Wire) (i : ℕ) :
    (w.id = none →
      (w.assign_id i).1 = Except.ok i ∧ (w.assign_id i).2.getId = Except.ok i) ∧
    (∀ j, w.id = some j →
      (∃ e, (w.assign_id i).1 = Except.error e) ∧
      (w.assign_id i).2 = w ∧ (w.assign_id i).2.getId = Except.ok j) := by
  constructor
  · intro h
    simp [Wire.assign_id, h, Wire.getId]
  · intro j h
    simp [Wire.assign_id, h, Wire.getId]

/-- Claim C8: after `set state` the remaining propagation equals the delay and
the active state is untouched (no commit without an explicit `step`); then
`step delta_t` with `delta_t >= remaining` commits (`active` becomes the
propagating target, `remaining` becomes 0), while `step delta_t` with
`delta_t < remaining` only decrements `remaining` by `delta_t` and leaves the
active state unchanged.  A delay of 0 falls under the first branch for any
positive `delta_t`, so it commits immediately. -/
theorem opin_set_step (p : OutputPin) (s : OutputPinState) (dt : ℕ) :
    (p.set s).remaining_propagation = p.delay ∧
    (p.set s).state = p.state ∧
    ((p.set s).remaining_propagation ≤ dt →
      ((p.set s).step dt).state = s ∧ ((p.set s).step dt).remaining_propagation = 0) ∧
    (dt < (p.set s).remaining_propagation →
      ((p.set s).step dt).state = p.state ∧
      ((p.set s).step dt).remaining_propagation = p.delay - dt) := by
  refine ⟨rfl, rfl, ?_, ?_⟩
  · intro h
    simp [OutputPin.step, OutputPin.set] at h ⊢
    simp [h]
  · intro h
    simp [OutputPin.set] at h
    simp [OutputPin.step, OutputPin.set, Nat.not_le.mpr h]

/-- Claim C10: a freshly constructed OutputPin has its remaining propagation
initialized to `u64::MAX` and its propagating target initialized to
HighImpedance; consequently `step delta_t` for any `delta_t < u64::MAX` leaves
the active state unchanged, while a single `step u64::MAX` commits
HighImpedance regardless of the initial state passed to the constructor. -/
theorem opin_new_defaults (name : String) (delay : ℕ) (st : OutputPinState) (dt : ℕ) :
    (OutputPin.new name delay st).remaining_propagation = UMAX ∧
    (OutputPin.new name delay st).propagating_state = OutputPinState.HighImpedance ∧
    (dt < UMAX → ((OutputPin.new name delay st).step dt).state = st) ∧
    ((OutputPin.new name delay st).step UMAX).state = OutputPinState.HighImpedance := by
  refine ⟨rfl, rfl, ?_, ?_⟩
  · intro h
    simp [OutputPin.step, OutputPin.new, Nat.not_le.mpr h]
  · simp [OutputPin.step, OutputPin.new]

/-- Claim C2: for every Wire whose level is a number and every `delta_t`,
`step delta_t` behaves exactly as the spec's formula: unchanged under
effective pull None, otherwise `decayed = level * exp (-delta_t / tau)` with
the new value `clamp (1 - decayed)` under pull Up and `clamp decayed` under
pull Down (`Wire.stepSpec`, the spec's §4.3 including its τ = 0 edge case). -/
theorem wire_step_matches_spec (w : Wire) (dt : ℕ) (v : ℝ)
    (hv : w.value.level = some v) :
    w.step dt = w.stepSpec dt := by
  cases hp : w.effective_pull with
  | None => simp [Wire.step, Wire.stepSpec, hp]
  | Up =>
    by_cases ht : w.tau = 0
    · by_cases hdt : dt = 0
      · simp [Wire.step, Wire.stepSpec, hp, ht, hdt, decayFactor, specFactor,
          omul, oneMinus, WireValue.new, hv]
      · simp [Wire.step, Wire.stepSpec, hp, ht, hdt, decayFactor, specFactor,
          omul, oneMinus, WireValue.new, hv, clampR]
    · simp [Wire.step, Wire.stepSpec, hp, ht, decayFactor, specFactor,
        omul, oneMinus, WireValue.new, hv]
  | Down =>
    by_cases ht : w.tau = 0
    · by_cases hdt : dt = 0
      · simp [Wire.step, Wire.stepSpec, hp, ht, hdt, decayFactor, specFactor,
          omul, oneMinus, WireValue.new, hv]
      · simp [Wire.step, Wire.stepSpec, hp, ht, hdt, decayFactor, specFactor,
          omul, oneMinus, WireValue.new, hv, clampR]
    · simp [Wire.step, Wire.stepSpec, hp, ht, decayFactor, specFactor,
        omul, oneMinus, WireValue.new, hv]

theorem wire_step_matches_spec_witness :
    (Wire.new "w" WirePull.Up).step 5 = (Wire.new "w" WirePull.Up).stepSpec 5 :=
  wire_step_matches_spec (Wire.new "w" WirePull.Up) 5 (clampR 1) rfl

/-- Claim C5: for every Wire with τ = 0, a numeric level and effective pull ≠
None, a single `step delta_t` with `delta_t > 0` sets the level exactly to
the pulled rail — exactly 1 for pull Up and exactly 0 for pull Down — the
division by zero in the exponent acting as the limit (the decay factor is
exactly 0), producing a number and never NaN. -/
theorem wire_zero_tau_snaps (w : Wire) (dt : ℕ) (v : ℝ)
    (ht : w.tau = 0) (hdt : dt ≠ 0) (hv : w.value.level = some v) :
    (w.effective_pull = WirePull.Up → (w.step dt).value.level = some 1) ∧
    (w.effective_pull = WirePull.Down → (w.step dt).value.level = some 0) := by
  constructor
  · intro hp
    simp [Wire.step, hp, ht, hdt, decayFactor, omul, oneMinus, WireValue.new, hv, clampR]
  · intro hp
    simp [Wire.step, hp, ht, hdt, decayFactor, omul, oneMinus, WireValue.new, hv, clampR]

theorem wire_zero_tau_snaps_witness :
    ((Wire.new "w" WirePull.Up).step 10).value.level = some 1 :=
  (wire_zero_tau_snaps (Wire.new "w" WirePull.Up) 10 (clampR 1)
    rfl (by norm_num) rfl).1 rfl

/-- Claim C6's failing input, evaluated: a Wire with effective pull Up and
the constructor's τ = 0 stepped by `delta_t = 0` computes
`exp (-0/0) = exp NaN = NaN`, and `clamp` keeps NaN, so the stored WireValue
level is NaN (`none`) — not a number in [0, 1].  This refutes "every
WireValue ever held has its level in the range [0, 1]" on the code as
written. -/
theorem wire_step_nan_level :
    ((Wire.new "w" WirePull.Up).step 0).value.level = none ∧
    ¬ ∃ x, ((Wire.new "w" WirePull.Up).step 0).value.level = some x ∧
        0 ≤ x ∧ x ≤ 1 := by
  constructor
  · simp [Wire.step, Wire.new, Wire.effective_pull, decayFactor, omul, oneMinus,
      WireValue.new]
  · rintro ⟨x, hx, -⟩
    rw [show ((Wire.new "w" WirePull.Up).step 0).value.level = none by
      simp [Wire.step, Wire.new, Wire.effective_pull, decayFactor, omul, oneMinus,
        WireValue.new]] at hx
    exact Option.noConfusion hx

/-- Claim C4's failing input, evaluated: a Simulation with wires "foo" (added
at id 0) and "bar" (added at id 1) runs the carrier-update phase while the
worker results arrive on the channel in the order [1, 0].  The phase succeeds
with Continuing, but the carrier checked out under id 1 ("bar") is checked
back in at id 0 and vice versa — the receive loop pairs the k-th arrival with
the k-th iterated id instead of the carrier's own identifier, silently
swapping the two wires in the store. -/
theorem step_wires_swaps_on_reordered_arrival :
    (((Simulation.new 10).add_wire wireFoo).2 = Except.ok 0) ∧
    ((((Simulation.new 10).add_wire wireFoo).1.add_wire wireBar).2 = Except.ok 1) ∧
    (Simulation.step_wires simC4 [1, 0]).map
        (fun r => ((r.1.wires.inspect 0).map Wire.name,
                   (r.1.wires.inspect 1).map Wire.name, r.2))
      = Except.ok (some "bar", some "foo", SimResult.Continuing) :=
  ⟨rfl, rfl, rfl⟩

theorem getD_append_one {T : Type} (l : List (Option T)) (a : Option T) (id : ℕ) :
    (l ++ [a]).getD id none =
      if id < l.length then l.getD id none
      else if id = l.length then a else none := by
  simp only [List.getD_eq_getElem?_getD, List.getElem?_append]
  by_cases h : id < l.length
  · simp [h]
  · by_cases h2 : id = l.length
    · subst h2
      simp
    · have h3 : l.length < id := by omega
      simp [h, h2]
      rw [List.getElem?_eq_none (by simp; omega)]
      rfl

theorem getD_set_self {T : Type} (l : List (Option T)) (a : Option T) (id : ℕ)
    (h : id < l.length) :
    (l.set id a).getD id none = a := by
  simp [List.getD_eq_getElem?_getD, List.getElem?_set_self h]

theorem getD_set_ne {T : Type} (l : List (Option T)) (a : Option T) (i j : ℕ)
    (h : i ≠ j) :
    (l.set i a).getD j none = l.getD j none := by
  simp [List.getD_eq_getElem?_getD, List.getElem?_set_ne h]

theorem applyOp_inv {T : Type} (s : LibState T) (op : LOp T) (h : LibInv s) :
    LibInv (applyOp s op) := by
  cases op with
  | add item =>
    intro id
    rcases h id with ⟨hlt, hge⟩
    simp only [applyOp, Library.add] at *
    constructor
    · intro hid
      simp only [List.length_append, List.length_singleton] at hid
      rw [getD_append_one]
      by_cases hido : id < s.lib.items.length
      · simpa [hido] using hlt hido
      · have heq : id = s.lib.items.length := by omega
        subst heq
        have hz := hge (le_refl _)
        rw [if_neg (lt_irrefl _), if_pos rfl]
        simp only [Option.isSome_some]
        exact ⟨⟨fun _ => by omega, fun _ => by trivial⟩, by omega, by omega⟩
    · intro hid
      simp only [List.length_append, List.length_singleton] at hid
      exact hge (by omega)
  | checkout id0 =>
    intro id
    rcases h id with ⟨hlt, hge⟩
    simp only [applyOp, Library.checkout]
    by_cases ho : id0 < s.lib.items.length
    · simp only [ho, if_true]
      by_cases hocc : (s.lib.items.getD id0 none).isSome
      · -- successful checkout: slot emptied, outs bumped at id0
        simp only [hocc, if_true]
        constructor
        · intro hid
          simp only [List.length_set] at hid
          by_cases hii : id = id0
          · subst hii
            rw [getD_set_self _ _ _ hid]
            rcases hlt hid with ⟨hiff, hle1, hle2⟩
            have hins : s.ins id = s.outs id := hiff.mp hocc
            simp [bump, hins]
          · rw [getD_set_ne _ _ _ _ (fun hc => hii hc.symm)]
            rcases hlt (by simpa [List.length_set] using hid) with ⟨hiff, hle1, hle2⟩
            simp only [bump, if_neg hii]
            exact ⟨hiff, hle1, hle2⟩
        · intro hid
          simp only [List.length_set] at hid
          have hne : id ≠ id0 := by omega
          have hz := hge hid
          simp only [bump, if_neg hne]
          exact hz
      · -- slot was already empty: nothing taken, outs unchanged
        simp only [hocc, if_false]
        constructor
        · intro hid
          simp only [List.length_set] at hid
          by_cases hii : id = id0
          · subst hii
            rw [getD_set_self _ _ _ hid]
            rcases hlt hid with ⟨hiff, hle1, hle2⟩
            refine ⟨?_, hle1, hle2⟩
            simp only [Option.isSome_none, Bool.false_eq_true, false_iff]
            exact fun he => hocc (hiff.mpr he)
          · rw [getD_set_ne _ _ _ _ (fun hc => hii hc.symm)]
            exact hlt (by simpa [List.length_set] using hid)
        · intro hid
          simp only [List.length_set] at hid
          exact hge hid
    · simp only [ho, if_false]
      exact ⟨hlt, hge⟩
  | checkin id0 item =>
    intro id
    rcases h id with ⟨hlt, hge⟩
    simp only [applyOp, Library.checkin]
    by_cases hc : id0 < s.lib.items.length ∧ (s.lib.items.getD id0 none).isNone = true
    · simp only [hc, and_self, if_true]
      constructor
      · intro hid
        simp only [List.length_set] at hid
        by_cases hii : id = id0
        · subst hii
          rw [getD_set_self _ _ _ hid]
          rcases hlt hid with ⟨hiff, hle1, hle2⟩
          have hemp : ¬ (s.lib.items.getD id none).isSome = true := by
            rw [Option.isNone_iff_eq_none.mp hc.2]
            simp
          have hne : s.ins id ≠ s.outs id := fun he => hemp (hiff.mpr he)
          have houts : s.outs id = s.ins id + 1 := by omega
          simp [bump, houts]
        · rw [getD_set_ne _ _ _ _ (fun he => hii he.symm)]
          rcases hlt (by simpa [List.length_set] using hid) with ⟨hiff, hle1, hle2⟩
          simp only [bump, if_neg hii]
          exact ⟨hiff, hle1, hle2⟩
      · intro hid
        simp only [List.length_set] at hid
        have hne : id ≠ id0 := by omega
        have hz := hge hid
        simp only [bump, if_neg hne]
        exact hz
    · simp only [hc, if_false]
      exact ⟨hlt, hge⟩

theorem runOps_inv {T : Type} (ops : List (LOp T)) (s : LibState T) (h : LibInv s) :
    LibInv (runOps ops s) := by
  induction ops generalizing s with
  | nil => exact h
  | cons op rest ih => exact ih _ (applyOp_inv s op h)

theorem initState_inv {T : Type} : LibInv (initState (T := T)) := by
  intro id
  constructor
  · intro hid
    simp [initState, Library.new] at hid
  · intro _
    exact ⟨rfl, rfl⟩

theorem getD_lt {T : Type} (l : List (Option T)) (id : ℕ) (h : id < l.length) :
    l.getD id none = l[id] := by
  rw [List.getD_eq_getElem?_getD, List.getElem?_eq_getElem h]
  rfl

theorem audit_ok_iff {T : Type} (l : Library T) :
    (l.audit = Except.ok ()) ↔
      ∀ id, id < l.items.length → (l.items.getD id none).isSome = true := by
  constructor
  · intro hok id hid
    rw [getD_lt _ _ hid]
    by_contra hno
    have hnone : l.items[id].isNone = true := by
      cases hx : l.items[id] with
      | none => rfl
      | some a =>
        rw [hx] at hno
        exact absurd rfl hno
    have hany : l.items.any Option.isNone = true :=
      List.any_eq_true.mpr ⟨l.items[id], List.getElem_mem hid, hnone⟩
    unfold Library.audit at hok
    rw [if_pos hany] at hok
    exact Except.noConfusion hok
  · intro hall
    unfold Library.audit
    rw [if_neg ?hno]
    case hno =>
      intro hany
      rcases List.any_eq_true.mp hany with ⟨x, hmem, hnone⟩
      rcases List.mem_iff_getElem.mp hmem with ⟨i, hi, hx⟩
      have hsome := hall i hi
      rw [getD_lt _ _ hi, hx] at hsome
      rw [Option.isNone_iff_eq_none.mp hnone] at hsome
      exact Bool.noConfusion hsome

/-- Claim C7: for every finite sequence of add/checkout/checkin operations
applied to an initially empty store, `audit()` succeeds if and only if every
added identifier has been (successfully) checked in at least as many times as
it has been (successfully) checked out, net. -/
theorem library_audit_iff_net (T : Type) (ops : List (LOp T)) :
    ((runOps ops initState).lib.audit = Except.ok ()) ↔
      ∀ id, id < (runOps ops initState).lib.items.length →
        (runOps ops initState).outs id ≤ (runOps ops initState).ins id := by
  have hinv := runOps_inv ops initState initState_inv
  rw [audit_ok_iff]
  constructor
  · intro hall id hid
    rcases (hinv id).1 hid with ⟨hiff, hle1, hle2⟩
    have := hiff.mp (hall id hid)
    omega
  · intro hall id hid
    rcases (hinv id).1 hid with ⟨hiff, hle1, hle2⟩
    have := hall id hid
    exact hiff.mpr (by omega)

theorem step_fields (w : Wire) (dt : ℕ) :
    (w.step dt).tau = w.tau ∧ (w.step dt).pull = w.pull ∧
      (w.step dt).default_pull = w.default_pull := by
  simp only [Wire.step]
  split
  · split
    · exact ⟨rfl, rfl, rfl⟩
    · exact ⟨rfl, rfl, rfl⟩
  · exact ⟨rfl, rfl, rfl⟩

theorem step_effective_pull (w : Wire) (dt : ℕ) :
    (w.step dt).effective_pull = w.effective_pull := by
  unfold Wire.effective_pull
  rw [(step_fields w dt).2.1, (step_fields w dt).2.2]

theorem step_level_up (w : Wire) (dt : ℕ) (v : ℝ)
    (hp : w.effective_pull = WirePull.Up) (ht : w.tau ≠ 0)
    (hv : w.value.level = some v) :
    (w.step dt).value.level =
      some (clampR (1 - v * Real.exp (-(dt : ℝ) / w.tau))) := by
  simp [Wire.step, hp, ht, decayFactor, omul, oneMinus, WireValue.new, hv]

theorem step_level_down (w : Wire) (dt : ℕ) (v : ℝ)
    (hp : w.effective_pull = WirePull.Down) (ht : w.tau ≠ 0)
    (hv : w.value.level = some v) :
    (w.step dt).value.level =
      some (clampR (v * Real.exp (-(dt : ℝ) / w.tau))) := by
  simp [Wire.step, hp, ht, decayFactor, omul, oneMinus, WireValue.new, hv]

theorem clampR_eq_self {x : ℝ} (h0 : 0 ≤ x) (h1 : x ≤ 1) : clampR x = x := by
  unfold clampR
  rw [max_eq_left h0, min_eq_left h1]

theorem decay_lt_one (tau : ℝ) (dt : ℕ) (ht : 0 < tau) (hdt : 0 < dt) :
    Real.exp (-(dt : ℝ) / tau) < 1 := by
  have harg : -(dt : ℝ) / tau < 0 := by
    apply div_neg_of_neg_of_pos _ ht
    rw [neg_lt_zero]
    exact_mod_cast hdt
  calc Real.exp (-(dt : ℝ) / tau) < Real.exp 0 := Real.exp_lt_exp.mpr harg
  _ = 1 := Real.exp_zero

theorem stepIter_tau (w : Wire) (dt n : ℕ) : (stepIter w dt n).tau = w.tau := by
  induction n with
  | zero => rfl
  | succ n ih => rw [stepIter, (step_fields _ dt).1, ih]

theorem stepIter_effective_pull (w : Wire) (dt n : ℕ) :
    (stepIter w dt n).effective_pull = w.effective_pull := by
  induction n with
  | zero => rfl
  | succ n ih => rw [stepIter, step_effective_pull, ih]

theorem stepIter_down_level (w : Wire) (dt : ℕ) (v : ℝ)
    (hp : w.effective_pull = WirePull.Down) (ht : 0 < w.tau) (hdt : 0 < dt)
    (hv : w.value.level = some v) (h0 : 0 ≤ v) (h1 : v ≤ 1) :
    ∀ n, (stepIter w dt n).value.level =
      some (v * Real.exp (-(dt : ℝ) / w.tau) ^ n) := by
  intro n
  induction n with
  | zero =>
    simpa [stepIter] using hv
  | succ n ih =>
    set r := Real.exp (-(dt : ℝ) / w.tau) with hr
    have hr0 : 0 < r := Real.exp_pos _
    have hr1 : r < 1 := decay_lt_one _ _ ht hdt
    have hb0 : 0 ≤ v * r ^ n := by positivity
    have hb1 : v * r ^ n ≤ 1 :=
      mul_le_one₀ h1 (by positivity) (pow_le_one₀ hr0.le hr1.le)
    have hstep := step_level_down (stepIter w dt n) dt (v * r ^ n)
      (by rw [stepIter_effective_pull]; exact hp)
      (by rw [stepIter_tau]; exact ne_of_gt ht) ih
    rw [stepIter_tau] at hstep
    have hb0' : 0 ≤ v * r ^ n * r := by positivity
    have hb1' : v * r ^ n * r ≤ 1 := by nlinarith
    rw [stepIter, hstep, ← hr, clampR_eq_self hb0' hb1']
    congr 1
    ring

theorem stepIter_up_level (w : Wire) (dt : ℕ) (v : ℝ)
    (hp : w.effective_pull = WirePull.Up) (ht : 0 < w.tau) (hdt : 0 < dt)
    (hv : w.value.level = some v) (h0 : 0 ≤ v) (h1 : v ≤ 1) :
    ∀ n, ∃ x, (stepIter w dt n).value.level = some x ∧ 0 ≤ x ∧ x ≤ 1 ∧
      x - 1 / (1 + Real.exp (-(dt : ℝ) / w.tau)) =
        (-Real.exp (-(dt : ℝ) / w.tau)) ^ n *
          (v - 1 / (1 + Real.exp (-(dt : ℝ) / w.tau))) := by
  intro n
  set r := Real.exp (-(dt : ℝ) / w.tau) with hr
  have hr0 : 0 < r := Real.exp_pos _
  have hr1 : r < 1 := decay_lt_one _ _ ht hdt
  have hc : 1 / (1 + r) * (1 + r) = 1 := div_mul_cancel₀ 1 (by positivity)
  induction n with
  | zero =>
    exact ⟨v, by simpa [stepIter] using hv, h0, h1, by rw [pow_zero, one_mul]⟩
  | succ n ih =>
    rcases ih with ⟨x, hx, hx0, hx1, hxc⟩
    have hstep := step_level_up (stepIter w dt n) dt x
      (by rw [stepIter_effective_pull]; exact hp)
      (by rw [stepIter_tau]; exact ne_of_gt ht) hx
    rw [stepIter_tau] at hstep
    have hb0 : 0 ≤ 1 - x * r := by nlinarith
    have hb1 : 1 - x * r ≤ 1 := by nlinarith
    refine ⟨1 - x * r, ?_, hb0, hb1, ?_⟩
    · rw [stepIter, hstep, ← hr, clampR_eq_self hb0 hb1]
    · have hkey : (1 - x * r) - 1 / (1 + r) = -r * (x - 1 / (1 + r)) := by
        linear_combination -hc
      rw [hkey, hxc]
      ring
/-- Claim C1 as amended: for τ > 0 and repeated `step` calls with one and the
same `delta_t > 0`, a wire with effective pull Down moves monotonically toward
the rail 0, never overshoots it, and comes within any ε > 0 of it after
sufficiently many steps — exactly as claimed.  A wire with effective pull Up,
however, converges to the interior fixed point `1 / (1 + exp (-delta_t/τ))`,
which is strictly below the rail 1: the code decays the level itself rather
than the distance to the rail, so the level is within every ε of that fixed
point eventually, not of the rail. -/
theorem wire_repeated_step_amended (w : Wire) (dt : ℕ) (v : ℝ)
    (ht : 0 < w.tau) (hdt : 0 < dt) (hv : w.value.level = some v)
    (h0 : 0 ≤ v) (h1 : v ≤ 1) :
    (w.effective_pull = WirePull.Down →
      (∀ n, ∃ x y, (stepIter w dt n).value.level = some x ∧
        (stepIter w dt (n + 1)).value.level = some y ∧ y ≤ x ∧ 0 ≤ y) ∧
      (∀ ε : ℝ, 0 < ε → ∃ N, ∀ n, N ≤ n → ∃ x,
        (stepIter w dt n).value.level = some x ∧ |x - 0| < ε)) ∧
    (w.effective_pull = WirePull.Up →
      1 / (1 + Real.exp (-(dt : ℝ) / w.tau)) < 1 ∧
      (∀ ε : ℝ, 0 < ε → ∃ N, ∀ n, N ≤ n → ∃ x,
        (stepIter w dt n).value.level = some x ∧
        |x - 1 / (1 + Real.exp (-(dt : ℝ) / w.tau))| < ε)) := by
  have hr0 : 0 < Real.exp (-(dt : ℝ) / w.tau) := Real.exp_pos _
  have hr1 : Real.exp (-(dt : ℝ) / w.tau) < 1 := decay_lt_one _ _ ht hdt
  set r := Real.exp (-(dt : ℝ) / w.tau) with hr
  constructor
  · intro hp
    have hlvl := stepIter_down_level w dt v hp ht hdt hv h0 h1
    constructor
    · intro n
      refine ⟨v * r ^ n, v * r ^ (n + 1), hlvl n, hlvl (n + 1), ?_, by positivity⟩
      have : r ^ (n + 1) ≤ r ^ n := pow_le_pow_of_le_one hr0.le hr1.le (by omega)
      nlinarith
    · intro ε hε
      rcases exists_pow_lt_of_lt_one hε hr1 with ⟨N, hN⟩
      refine ⟨N, fun n hn => ⟨v * r ^ n, hlvl n, ?_⟩⟩
      have hmono : r ^ n ≤ r ^ N := pow_le_pow_of_le_one hr0.le hr1.le hn
      have habs : |v * r ^ n - 0| = v * r ^ n := by
        rw [sub_zero, abs_of_nonneg (by positivity)]
      rw [habs]
      have : v * r ^ n ≤ r ^ n := by nlinarith [pow_pos hr0 n]
      linarith
  · intro hp
    have hc1 : 1 / (1 + r) < 1 := by
      rw [div_lt_one (by positivity)]
      linarith
    refine ⟨hc1, ?_⟩
    intro ε hε
    have hc0 : 0 < 1 / (1 + r) := by positivity
    have hvc : |v - 1 / (1 + r)| ≤ 1 := by
      rw [abs_le]
      constructor <;> nlinarith
    rcases exists_pow_lt_of_lt_one hε hr1 with ⟨N, hN⟩
    refine ⟨N, fun n hn => ?_⟩
    rcases stepIter_up_level w dt v hp ht hdt hv h0 h1 n with ⟨x, hx, hx0, hx1, hxc⟩
    refine ⟨x, hx, ?_⟩
    have habs : |x - 1 / (1 + r)| = r ^ n * |v - 1 / (1 + r)| := by
      rw [hxc, abs_mul, abs_pow, abs_neg, abs_of_pos hr0]
    have hmono : r ^ n ≤ r ^ N := pow_le_pow_of_le_one hr0.le hr1.le hn
    rw [habs]
    have hpn : 0 < r ^ n := pow_pos hr0 n
    nlinarith

/-- Claim C1 is false as stated: the wire with default pull Up, τ = 1 and
level 1 (the constructor's value for an Up wire) moves *away* from the rail 1
on the very first `step 1` — the distance to the rail grows from 0 to
`exp (-1) > 0` — refuting the claimed monotone approach. -/
theorem repeatedStepClaim_false : ¬ repeatedStepClaim := by
  intro h
  have htau : wireUpW.tau = 1 := by
    simp only [wireUpW, Wire.set_time_constant, Wire.new]
    exact max_eq_left (by norm_num)
  have hpull : wireUpW.effective_pull = WirePull.Up := by
    simp [wireUpW, Wire.set_time_constant, Wire.new, Wire.effective_pull]
  have hlvl0 : (stepIter wireUpW 1 0).value.level = some 1 := by
    simp only [stepIter, wireUpW, Wire.set_time_constant, Wire.new, WireValue.new,
      Option.map_some']
    rw [clampR_eq_self (by norm_num) (by norm_num)]
  have hE0 : 0 < Real.exp (-((1 : ℕ) : ℝ) / wireUpW.tau) := Real.exp_pos _
  have hE1 : Real.exp (-((1 : ℕ) : ℝ) / wireUpW.tau) < 1 :=
    decay_lt_one wireUpW.tau 1 (by rw [htau]; norm_num) (by norm_num)
  have hlvl1 : (stepIter wireUpW 1 1).value.level =
      some (1 - Real.exp (-((1 : ℕ) : ℝ) / wireUpW.tau)) := by
    have hstep := step_level_up wireUpW 1 1 hpull (by rw [htau]; norm_num) hlvl0
    rw [show stepIter wireUpW 1 1 = wireUpW.step 1 from rfl, hstep, one_mul,
      clampR_eq_self (by linarith) (by linarith)]
  rcases h wireUpW 1 (by rw [htau]; norm_num)
      (by rw [hpull]; exact fun hc => WirePull.noConfusion hc)
      (by norm_num) with ⟨hmono, -⟩
  rcases hmono 0 1 (1 - Real.exp (-((1 : ℕ) : ℝ) / wireUpW.tau)) hlvl0 hlvl1 with
    ⟨hdist, -, -⟩
  rw [hpull] at hdist
  have hrail : railLevel WirePull.Up = 1 := by simp [railLevel]
  rw [hrail] at hdist
  have h11 : |(1 : ℝ) - 1| = 0 := by norm_num
  rw [h11] at hdist
  have habs : |1 - Real.exp (-((1 : ℕ) : ℝ) / wireUpW.tau) - 1| =
      Real.exp (-((1 : ℕ) : ℝ) / wireUpW.tau) := by
    rw [show (1 : ℝ) - Real.exp (-((1 : ℕ) : ℝ) / wireUpW.tau) - 1 =
      -(Real.exp (-((1 : ℕ) : ℝ) / wireUpW.tau)) by ring, abs_neg, abs_of_pos hE0]
  rw [habs] at hdist
  linarith
/-- Claim C1's witness: the amended theorem applied to the concrete wire with
default pull Down, τ = 1, level 0, stepped by 1. -/
theorem wire_repeated_step_amended_witness :
    (∀ n, ∃ x y, (stepIter wireDnW 1 n).value.level = some x ∧
      (stepIter wireDnW 1 (n + 1)).value.level = some y ∧ y ≤ x ∧ 0 ≤ y) ∧
    (∀ ε : ℝ, 0 < ε → ∃ N, ∀ n, N ≤ n → ∃ x,
      (stepIter wireDnW 1 n).value.level = some x ∧ |x - 0| < ε) :=
  (wire_repeated_step_amended wireDnW 1 0
    (by
      simp only [wireDnW, Wire.set_time_constant, Wire.new]
      norm_num)
    (by norm_num)
    (by
      simp only [wireDnW, Wire.set_time_constant, Wire.new, WireValue.new,
        Option.map_some']
      rw [clampR_eq_self le_rfl (by norm_num)])
    le_rfl (by norm_num)).1
    (by simp [wireDnW, Wire.set_time_constant, Wire.new, Wire.effective_pull])

theorem exp_neg_two_bounds :
    (0.1353352 : ℝ) < Real.exp (-2) ∧ Real.exp (-2) < 0.1353354 := by
  have hmul : Real.exp (-2) * (Real.exp 1 * Real.exp 1) = 1 := by
    rw [← Real.exp_add, ← Real.exp_add]
    norm_num
  have h1 := Real.exp_one_gt_d9
  have h2 := Real.exp_one_lt_d9
  have hpos := Real.exp_pos (-2 : ℝ)
  have hpos1 := Real.exp_pos (1 : ℝ)
  have haa1 : (7.389056 : ℝ) < Real.exp 1 * Real.exp 1 := by nlinarith
  have haa2 : Real.exp 1 * Real.exp 1 < 7.3890561 := by nlinarith
  constructor
  · nlinarith
  · nlinarith

theorem wire_c3_level_eq :
    (wireC3.step 10).value.level = some (1 - Real.exp (-2)) := by
  have htau : wireC3.tau = 5 := by
    simp only [wireC3, Wire.set_time_constant, Wire.new]
    exact max_eq_left (by norm_num)
  have hpull : wireC3.effective_pull = WirePull.Up := by
    simp [wireC3, Wire.set_time_constant, Wire.new, Wire.effective_pull]
  have hlvl : wireC3.value.level = some 1 := by
    simp only [wireC3, Wire.set_time_constant, Wire.new, WireValue.new,
      Option.map_some']
    rw [clampR_eq_self (by norm_num) (by norm_num)]
  have hstep := step_level_up wireC3 10 1 hpull (by rw [htau]; norm_num) hlvl
  rw [htau] at hstep
  have harg : -((10 : ℕ) : ℝ) / 5 = -2 := by norm_num
  rw [harg, one_mul] at hstep
  rcases exp_neg_two_bounds with ⟨hlo, hhi⟩
  rw [hstep, clampR_eq_self (by nlinarith) (by nlinarith)]

/-- Claim C3 is false as stated: for a Wire created with default pull Up
(initial level 1.0), time constant 5 and no active pull override, `step 10`
leaves the level `1 - exp (-2) ≈ 0.8646647`, which is not within 1/100 of the
claimed 0.9323324 (the claimed figure `1 - 0.5 * exp (-2)` belongs to a wire
that starts at level 0.5). -/
theorem wire_c3_claim_false :
    ¬ levelNear (wireC3.step 10) 0.9323324 (1 / 100) := by
  rintro ⟨x, hx, hnear⟩
  rw [wire_c3_level_eq] at hx
  have hxe : x = 1 - Real.exp (-2) := by
    exact (Option.some.injEq _ _).mp hx.symm
  subst hxe
  rcases exp_neg_two_bounds with ⟨hlo, hhi⟩
  rw [abs_le] at hnear
  have := hnear.1
  norm_num at this
  nlinarith

/-- Claim C3 as amended: for a Wire created with default pull Up, time
constant set to 5 and no active pull override, a single `step 10` leaves the
measured level approximately `1 - exp (-2) ≈ 0.8646647` (within 10^-5). -/
theorem wire_c3_step_level :
    levelNear (wireC3.step 10) 0.8646647 (1 / 100000) := by
  rcases exp_neg_two_bounds with ⟨hlo, hhi⟩
  refine ⟨1 - Real.exp (-2), wire_c3_level_eq, ?_⟩
  rw [abs_le]
  constructor <;> nlinarith

end

end RvfsSim
